import Mathlib

/-!
Verification of the slixmpp XML stream engine
(`slixmpp/xmlstream/xmlstream.py` and
`slixmpp/features/feature_starttls/stanza.py`).

The Python code is shallowly embedded: each relevant method is translated
into an executable Lean function over explicit state, and the claims of the
specification are settled as theorems about those functions.
-/

namespace Slixmpp

/-! ## XML elements

A minimal model of `xml.etree.ElementTree.Element`: a tag plus children.
`clear()` empties the children (used by `data_received` on the root element
to bound memory use). -/

structure XmlElem where
  tag : String
  children : List XmlElem

def XmlElem.clear (x : XmlElem) : XmlElem :=
  { x with children := [] }

/-! ## Incremental framer: `data_received`

`XMLPullParser(("start", "end"))` yields a sequence of `start`/`end`
events; `data_received` iterates over them, maintaining `xml_depth`,
`xml_root`, the `stream_end_event` flag and `reconnect_delay`
(reset to `1.0` when the root element opens).  The Python depth counter is
a plain integer, so it is modelled as `Int`. -/

inductive PEvent where
  | startEv (xml : XmlElem)
  | endEv (xml : XmlElem)

/-- The reconnect-backoff floor: `data_received` assigns
`self.reconnect_delay = 1.0` once the stream header is received
(the float `1.0` is modelled as the natural number `1`). -/
def reconnectDelayFloor : Nat := 1

/-- The framer-relevant state of an `XMLStream` object. -/
structure Framer where
  xml_depth : Int
  xml_root : Option XmlElem
  stream_end_event : Bool
  reconnect_delay : Option Nat

/-- Result of handling one parser event: either continue with the next
event, or stop consuming events for this `data_received` call (the
`return False` taken when the root element closes). -/
inductive StepResult where
  | cont (st : Framer)
  | stop (st : Framer)

def StepResult.state : StepResult → Framer
  | .cont st => st
  | .stop st => st

/-- One iteration of the `for event, xml in self.parser.read_events()`
loop of `data_received`.  The returned element is the argument passed to
`__spawn_event`, if any. -/
def dataReceivedStep (st : Framer) (ev : PEvent) : StepResult × Option XmlElem :=
  match ev with
  | .startEv xml =>
      if st.xml_depth = 0 then
        -- start of the root element: stream initialization, and a
        -- successful stream connection resets the exponential backoff;
        -- then the depth increases as for every start event
        (.cont { st with xml_root := some xml,
                         stream_end_event := false,
                         reconnect_delay := some reconnectDelayFloor,
                         xml_depth := st.xml_depth + 1 }, none)
      else
        (.cont { st with xml_depth := st.xml_depth + 1 }, none)
  | .endEv xml =>
      let st1 := { st with xml_depth := st.xml_depth - 1 }
      if st1.xml_depth = 0 then
        -- the stream's root element has closed, terminating the stream
        (.stop { st1 with stream_end_event := true }, none)
      else if st1.xml_depth = 1 then
        -- only direct children of the root element raise events;
        -- afterwards the root element is kept empty of children
        (.cont { st1 with xml_root := st1.xml_root.map XmlElem.clear }, some xml)
      else
        (.cont st1, none)

/-- The event loop of `data_received`: processes parser events in order,
collecting the elements handed to `__spawn_event`, and stops early when
the root element closes (the `return False`). -/
def data_received (st : Framer) : List PEvent → Framer × List XmlElem
  | [] => (st, [])
  | .startEv xml :: rest =>
      if st.xml_depth = 0 then
        data_received { st with xml_root := some xml, stream_end_event := false,
                                reconnect_delay := some reconnectDelayFloor,
                                xml_depth := st.xml_depth + 1 } rest
      else
        data_received { st with xml_depth := st.xml_depth + 1 } rest
  | .endEv xml :: rest =>
      if st.xml_depth - 1 = 0 then
        ({ st with xml_depth := st.xml_depth - 1, stream_end_event := true }, [])
      else if st.xml_depth - 1 = 1 then
        let r := data_received { st with xml_depth := st.xml_depth - 1, xml_root := Option.map XmlElem.clear st.xml_root } rest
        (r.1, xml :: r.2)
      else
        data_received { st with xml_depth := st.xml_depth - 1 } rest

/-- Coherence: the event loop performs one `dataReceivedStep` per parser
event, stopping when the step says so. -/
theorem data_received_cons (st : Framer) (ev : PEvent) (rest : List PEvent) :
    data_received st (ev :: rest) =
      match dataReceivedStep st ev with
      | (.stop st1, _) => (st1, [])
      | (.cont st1, out) =>
          ((data_received st1 rest).1, out.toList ++ (data_received st1 rest).2) := by
  cases ev with
  | startEv xml =>
      simp only [data_received, dataReceivedStep]
      by_cases h0 : st.xml_depth = 0 <;> simp [h0]
  | endEv xml =>
      simp only [data_received, dataReceivedStep]
      by_cases h0 : st.xml_depth - 1 = 0
      · simp [h0]
      · by_cases h1 : st.xml_depth - 1 = 1 <;> simp [h0, h1]

/-! Claim-side characterizations of the framer, written from the words of
the specification (for comparison with `data_received` above): which
elements are stanza boundaries, and whether the run closes the stream. -/

/-- The elements whose `end` event returns the depth counter to 1,
up to (and not past) the `end` event that returns the depth to 0. -/
def stanzaBoundaries (depth : Int) : List PEvent → List XmlElem
  | [] => []
  | .startEv _ :: rest => stanzaBoundaries (depth + 1) rest
  | .endEv xml :: rest =>
      if depth - 1 = 0 then []
      else if depth - 1 = 1 then xml :: stanzaBoundaries (depth - 1) rest
      else stanzaBoundaries (depth - 1) rest

/-- Whether some `end` event of the list returns the depth counter to 0. -/
def streamEnds (depth : Int) : List PEvent → Bool
  | [] => false
  | .startEv _ :: rest => streamEnds (depth + 1) rest
  | .endEv _ :: rest =>
      if depth - 1 = 0 then true else streamEnds (depth - 1) rest

/-! ## STARTTLS stanza (`features/feature_starttls/stanza.py`)

The `STARTTLS` stanza class declares the interface `required`, whose
reader ignores the stanza's XML payload entirely. -/

structure STARTTLS where
  xml : XmlElem

def STARTTLS.stanzaName : String := "starttls"

def STARTTLS.namespaceURI : String := "urn:ietf:params:xml:ns:xmpp-tls"

/-- `STARTTLS.get_required` of `feature_starttls/stanza.py`. -/
def STARTTLS.get_required (_s : STARTTLS) : Bool := true

/-! ## Reconnection backoff

`reconnect()` in `xmlstream.py` performs no delay computation itself
(its body reduces to `self.connect()`); only the `reconnect_delay`
attribute — documented to double with jitter up to
`reconnect_max_delay` — and its reset in `data_received` are present in
the source.  The successive-delay computation is therefore modelled from
the spec. -/

/-- Modelled from the spec: the code computing the next reconnect backoff
delay is absent from the source (`reconnect()` delegates to `connect()`);
per the spec the delay "doubles (with jitter) on each consecutive failure,
and is capped at a configured ceiling".  Jitter is a nonnegative
perturbation applied before capping. -/
def backoffNext (ceiling delay jitter : Nat) : Nat :=
  min (2 * delay + jitter) ceiling

/-- Modelled from the spec: the backoff delay after `n` consecutive
failures, starting at the floor, with per-failure jitter `jitter n`. -/
def backoffSeq (floor ceiling : Nat) (jitter : Nat → Nat) : Nat → Nat
  | 0 => floor
  | n + 1 => backoffNext ceiling (backoffSeq floor ceiling jitter n) (jitter n)

/-! ## Theorems -/

/-- Auxiliary: the stanza boundaries emitted by `data_received` depend on
the state only through the depth counter, and match the claim-side
characterization. -/
theorem data_received_snd_eq (evs : List PEvent) :
    ∀ st : Framer, (data_received st evs).2 = stanzaBoundaries st.xml_depth evs := by
  induction evs with
  | nil => intro st; rfl
  | cons ev rest ih =>
      intro st
      cases ev with
      | startEv xml =>
          simp only [data_received, stanzaBoundaries]
          by_cases h0 : st.xml_depth = 0
          · simpa only [if_pos h0] using ih _
          · simpa only [if_neg h0] using ih _
      | endEv xml =>
          simp only [data_received, stanzaBoundaries]
          by_cases h0 : st.xml_depth - 1 = 0
          · simp [h0]
          · by_cases h1 : st.xml_depth - 1 = 1
            · simp only [if_neg h0, if_pos h1, List.cons.injEq, true_and]
              exact ih _
            · simp only [if_neg h0, if_neg h1]
              exact ih _

/-- Auxiliary: once a run closes the stream, trailing events are ignored
entirely and the final state records the stream end. -/
theorem data_received_stream_end (evs : List PEvent) :
    ∀ (st : Framer) (tail : List PEvent),
      streamEnds st.xml_depth evs = true →
      data_received st (evs ++ tail) = data_received st evs
        ∧ (data_received st evs).1.stream_end_event = true := by
  induction evs with
  | nil => intro st tail h; simp [streamEnds] at h
  | cons ev rest ih =>
      intro st tail h
      cases ev with
      | startEv xml =>
          simp only [streamEnds] at h
          simp only [List.cons_append, data_received]
          by_cases h0 : st.xml_depth = 0
          · obtain ⟨ihe, ihf⟩ := ih
              { st with xml_root := some xml, stream_end_event := false,
                        reconnect_delay := some reconnectDelayFloor,
                        xml_depth := st.xml_depth + 1 } tail h
            simp only [if_pos h0]
            exact ⟨ihe, ihf⟩
          · obtain ⟨ihe, ihf⟩ := ih { st with xml_depth := st.xml_depth + 1 } tail h
            simp only [if_neg h0]
            exact ⟨ihe, ihf⟩
      | endEv xml =>
          simp only [streamEnds] at h
          simp only [List.cons_append, data_received]
          by_cases h0 : st.xml_depth - 1 = 0
          · simp [h0]
          · simp only [if_neg h0] at h ⊢
            by_cases h1 : st.xml_depth - 1 = 1
            · obtain ⟨ihe, ihf⟩ := ih
                { st with xml_depth := st.xml_depth - 1,
                          xml_root := Option.map XmlElem.clear st.xml_root } tail h
              simp only [if_pos h1]
              exact ⟨by simp only [List.append_eq]; rw [ihe], ihf⟩
            · obtain ⟨ihe, ihf⟩ := ih { st with xml_depth := st.xml_depth - 1 } tail h
              simp only [if_neg h1]
              exact ⟨ihe, ihf⟩

/-- C1: feeding the framer any event sequence, exactly the elements whose
`end` event returns the depth counter to 1 are dispatched (to
`__spawn_event`) as stanza boundaries; `end` events at greater depth
dispatch nothing (they are not collected); and when an `end` event
returns the depth to 0 the stream-end flag is set and the remaining
parser events of that call are discarded. -/
theorem data_received_stanza_boundaries (st : Framer) (evs tail : List PEvent) :
    (data_received st evs).2 = stanzaBoundaries st.xml_depth evs
      ∧ (streamEnds st.xml_depth evs = true →
          data_received st (evs ++ tail) = data_received st evs
            ∧ (data_received st evs).1.stream_end_event = true) := by
  refine ⟨data_received_snd_eq evs st, fun h => data_received_stream_end evs st tail h⟩

/-- Witness for C1 at a concrete run: a root open, one complete child
(the stanza), then the root close; trailing events are discarded. -/
theorem data_received_stanza_boundaries_witness :
    let root : XmlElem := ⟨"stream", []⟩
    let child : XmlElem := ⟨"message", []⟩
    let st : Framer := ⟨0, none, true, none⟩
    let evs := [PEvent.startEv root, PEvent.startEv child, PEvent.endEv child,
                PEvent.endEv root]
    streamEnds st.xml_depth evs = true
      ∧ (data_received st evs).2 = stanzaBoundaries st.xml_depth evs
      ∧ data_received st (evs ++ [PEvent.startEv child]) = data_received st evs
      ∧ (data_received st evs).1.stream_end_event = true := by
  refine ⟨by decide, ?_, ?_, ?_⟩
  · exact (data_received_stanza_boundaries ⟨0, none, true, none⟩ _ []).1
  · exact ((data_received_stanza_boundaries ⟨0, none, true, none⟩ _
      [PEvent.startEv ⟨"message", []⟩]).2 (by decide)).1
  · exact ((data_received_stanza_boundaries ⟨0, none, true, none⟩ _ []).2 (by decide)).2

/-- Auxiliary: the modelled backoff delays stay at or below the ceiling
and never decrease. -/
theorem backoffSeq_le_and_mono (floor ceiling : Nat) (jitter : Nat → Nat)
    (hfc : floor ≤ ceiling) :
    ∀ n, backoffSeq floor ceiling jitter n ≤ ceiling
      ∧ backoffSeq floor ceiling jitter n ≤ backoffSeq floor ceiling jitter (n + 1) := by
  intro n
  induction n with
  | zero =>
      refine ⟨hfc, ?_⟩
      simp only [backoffSeq, backoffNext]
      exact le_min (by omega) hfc
  | succ n ih =>
      have hle : backoffSeq floor ceiling jitter (n + 1) ≤ ceiling := by
        simp only [backoffSeq, backoffNext]
        exact min_le_right _ _
      refine ⟨hle, ?_⟩
      simp only [backoffSeq, backoffNext]
      exact le_min (by omega) hle

/-- C2: the modelled backoff delay sequence is non-decreasing and capped
at the configured ceiling (given a floor at or below the ceiling), and a
`start` parser event received at depth 0 — the successful receipt of a
stream header — resets `reconnect_delay` to the floor, so the sequence
restarts at the floor. -/
theorem reconnect_backoff_mono_capped_reset
    (ceiling : Nat) (jitter : Nat → Nat) (st : Framer) (xml : XmlElem)
    (hfc : reconnectDelayFloor ≤ ceiling) (hd : st.xml_depth = 0) :
    (∀ n, backoffSeq reconnectDelayFloor ceiling jitter n ≤ ceiling
        ∧ backoffSeq reconnectDelayFloor ceiling jitter n
            ≤ backoffSeq reconnectDelayFloor ceiling jitter (n + 1))
      ∧ (dataReceivedStep st (.startEv xml)).1.state.reconnect_delay
          = some reconnectDelayFloor
      ∧ backoffSeq reconnectDelayFloor ceiling jitter 0 = reconnectDelayFloor := by
  refine ⟨backoffSeq_le_and_mono _ _ _ hfc, ?_, rfl⟩
  simp [dataReceivedStep, hd, StepResult.state]

/-- Witness for C2 at the ceiling 600 (`RECONNECT_MAX_DELAY`), zero
jitter, three failures, and a stream header received at depth 0. -/
theorem reconnect_backoff_mono_capped_reset_witness :
    backoffSeq reconnectDelayFloor 600 (fun _ => 0) 3 ≤ 600
      ∧ (dataReceivedStep ⟨0, none, true, none⟩
          (.startEv ⟨"stream", []⟩)).1.state.reconnect_delay
            = some reconnectDelayFloor := by
  have h := reconnect_backoff_mono_capped_reset 600 (fun _ => 0)
    ⟨0, none, true, none⟩ ⟨"stream", []⟩ (by decide) rfl
  exact ⟨(h.1 3).1, h.2.1⟩

/-- C10: reading the `required` interface of any STARTTLS stanza returns
True, regardless of the stanza's XML content. -/
theorem starttls_get_required (s : STARTTLS) : s.get_required = true := rfl

/-! ## Scheduler: `schedule`, `cancel_schedule`, `_remove_schedules`

`schedule` creates an asyncio timer via `loop.call_later` and stores the
handle in the `scheduled_events` dict under the given name (a plain dict
assignment).  `cancel_schedule` pops the name and cancels that handle; a
missing name is only logged.  The event loop is modelled as the list of
every handle ever created (`loopTimers`, a handle being an index into it);
a timer whose `cancelled` flag is unset will fire when due. -/

structure Timer where
  delaySeconds : ℚ
  cb : Nat
  repeating : Bool
  cancelled : Bool
deriving DecidableEq

structure Sched where
  loopTimers : List Timer
  scheduled_events : String → Option Nat

/-- `XMLStream.schedule`: `loop.call_later` allocates a fresh handle, and
`self.scheduled_events[name] = handle` overwrites any previous binding. -/
def schedule (s : Sched) (name : String) (seconds : ℚ) (cb : Nat)
    (repeating : Bool) : Sched :=
  { loopTimers := s.loopTimers ++ [⟨seconds, cb, repeating, false⟩],
    scheduled_events := fun n =>
      if n = name then some s.loopTimers.length else s.scheduled_events n }

/-- `handle.cancel()`: mark the handle's timer cancelled. -/
def cancelTimer (ts : List Timer) (h : Nat) : List Timer :=
  match ts[h]? with
  | some t => ts.set h { t with cancelled := true }
  | none => ts

/-- `XMLStream.cancel_schedule`: pop the name and cancel its handle; a
`KeyError` (unscheduled name) is logged and ignored. -/
def cancel_schedule (s : Sched) (name : String) : Sched :=
  match s.scheduled_events name with
  | some h =>
      { loopTimers := cancelTimer s.loopTimers h,
        scheduled_events := fun n => if n = name then none else s.scheduled_events n }
  | none => s

/-- The callbacks of the timers that will still fire: every handle passed
to `loop.call_later` fires when due unless it was cancelled. -/
def pendingCallbacks (s : Sched) : List Nat :=
  (s.loopTimers.filter (fun t => !t.cancelled)).map Timer.cb

/-- `XMLStream._remove_schedules`, the `'disconnected'` event handler:
cancels the whitespace-keepalive and certificate-expiration schedules. -/
def remove_schedules (s : Sched) : Sched :=
  cancel_schedule (cancel_schedule s "Whitespace Keepalive") "Certificate Expiration"

/-- An empty scheduler followed by two `schedule` calls under the same
name (callbacks 1 and then 2). -/
def schedC8 : Sched :=
  schedule (schedule ⟨[], fun _ => none⟩ "a" 5 1 false) "a" 5 2 false

/-- A scheduler holding the three session schedules, as armed by
`_session_timeout_check` (handle 2, callback 3), `_start_keepalive`
(handle 0, callback 1) and `_cert_expiration` (handle 1, callback 2). -/
def schedC9 : Sched :=
  schedule (schedule (schedule ⟨[], fun _ => none⟩
    "Whitespace Keepalive" 300 1 true)
    "Certificate Expiration" 1000 2 false)
    "Session timeout check" 45 3 false

/-- Auxiliary: cancelling one handle leaves every other handle's timer
unchanged. -/
theorem cancelTimer_getElem?_ne (ts : List Timer) (i j : Nat) (hij : i ≠ j) :
    (cancelTimer ts i)[j]? = ts[j]? := by
  unfold cancelTimer
  cases h : ts[i]? with
  | none => rfl
  | some t => exact List.getElem?_set_ne hij

/-- C8 counterexample: scheduling name "a" twice does not cancel the first
timer — its callback (1) is still pending and will fire, so it is not true
that only the newly scheduled callback fires for that name. -/
theorem schedule_replace_counterexample :
    pendingCallbacks schedC8 = [1, 2] ∧ 1 ∈ pendingCallbacks schedC8 := by
  refine ⟨rfl, ?_⟩
  rw [(rfl : pendingCallbacks schedC8 = [1, 2])]
  exact List.mem_cons_self 1 [2]

/-- C8 (amended): a second `schedule` call under an existing name silently
replaces the name's dict binding with the fresh handle (no error), but the
prior timer is not cancelled: it is left exactly as created, with its
`cancelled` flag unset, so its callback still fires. -/
theorem schedule_replace_amended (s : Sched) (name : String) (d d' : ℚ)
    (cb cb' : Nat) (r r' : Bool) :
    (schedule (schedule s name d cb r) name d' cb' r').scheduled_events name
        = some (schedule s name d cb r).loopTimers.length
      ∧ (schedule (schedule s name d cb r) name d' cb' r').loopTimers[s.loopTimers.length]?
          = some ⟨d, cb, r, false⟩
      ∧ cb ∈ pendingCallbacks (schedule (schedule s name d cb r) name d' cb' r') := by
  refine ⟨by simp [schedule], ?_, ?_⟩
  · have hlen : s.loopTimers.length < (s.loopTimers ++ [(⟨d, cb, r, false⟩ : Timer)]).length := by
      simp
    simp only [schedule]
    rw [List.getElem?_append_left hlen]
    exact List.getElem?_concat_length _ _
  · simp only [schedule, pendingCallbacks, List.filter_append, List.map_append]
    refine List.mem_append.mpr (Or.inl (List.mem_append.mpr (Or.inr ?_)))
    simp

/-- C9 counterexample: with the three session schedules armed, the
`'disconnected'` handler `_remove_schedules` leaves the session-timeout
check scheduled — its binding survives and its callback (3) still fires,
so it is not true that all three session timers are cancelled. -/
theorem remove_schedules_counterexample :
    (remove_schedules schedC9).scheduled_events "Session timeout check" = some 2
      ∧ 3 ∈ pendingCallbacks (remove_schedules schedC9) := by
  constructor
  · rfl
  · rw [(rfl : pendingCallbacks (remove_schedules schedC9) = [3])]
    exact List.mem_cons_self 3 []

/-- C9 (amended): on the `'disconnected'` event, `_remove_schedules`
cancels exactly the whitespace-keepalive and certificate-expiration
entries; every other scheduled entry — in particular the session-timeout
check — keeps its binding and its timer (including its cancelled flag)
unchanged. -/
theorem remove_schedules_amended (s : Sched) (n : String) (h : Nat)
    (hwk : n ≠ "Whitespace Keepalive") (hce : n ≠ "Certificate Expiration")
    (hn : s.scheduled_events n = some h)
    (hw : s.scheduled_events "Whitespace Keepalive" ≠ some h)
    (hc : s.scheduled_events "Certificate Expiration" ≠ some h) :
    (remove_schedules s).scheduled_events "Whitespace Keepalive" = none
      ∧ (remove_schedules s).scheduled_events "Certificate Expiration" = none
      ∧ (remove_schedules s).scheduled_events n = some h
      ∧ (remove_schedules s).loopTimers[h]? = s.loopTimers[h]? := by
  unfold remove_schedules
  unfold cancel_schedule
  cases hwkb : s.scheduled_events "Whitespace Keepalive" with
  | none =>
      cases hceb : s.scheduled_events "Certificate Expiration" with
      | none => simp_all
      | some hc2 =>
          have hch : hc2 ≠ h := fun he => hc (he ▸ hceb)
          simp_all [cancelTimer_getElem?_ne _ _ _ hch]
  | some hw2 =>
      have hwh : hw2 ≠ h := fun he => hw (he ▸ hwkb)
      simp only [hwkb]
      cases hceb : s.scheduled_events "Certificate Expiration" with
      | none =>
          simp_all [cancelTimer_getElem?_ne _ _ _ hwh]
      | some hc2 =>
          have hch : hc2 ≠ h := fun he => hc (he ▸ hceb)
          simp_all [cancelTimer_getElem?_ne _ _ _ hch,
                    cancelTimer_getElem?_ne _ _ _ hwh]

/-- Witness for the amended C9 on the concrete three-schedule state. -/
theorem remove_schedules_amended_witness :
    (remove_schedules schedC9).scheduled_events "Whitespace Keepalive" = none
      ∧ (remove_schedules schedC9).scheduled_events "Session timeout check" = some 2
      ∧ (remove_schedules schedC9).loopTimers[2]? = schedC9.loopTimers[2]? := by
  have h := remove_schedules_amended schedC9 "Session timeout check" 2
    (by decide) (by decide) rfl (by decide) (by decide)
  exact ⟨h.1, h.2.2.1, h.2.2.2⟩

/-! ## Outbound pump: `_send_thread`

The send worker loops: it waits for the session-started event (or stop),
then picks the retained `__failed_send_stanza` if there is one, else
dequeues; it then writes the item to the socket inside the send lock,
where each `socket.send` attempt either succeeds partially, raises a
socket error (`EINTR` is swallowed, anything else re-raised to the outer
handler), or raises an SSL error handled inline with a retry counter.
The socket's behavior is a script of per-attempt outcomes; the worker's
externally visible effects (sleeps, hook invocations, events,
`disconnect` calls) are collected as a trace.  The `stop` and
`session_started` flags are modelled as constant during one call. -/

inductive SendOutcome where
  | ok (n : Nat)
  | sockErr (eintr : Bool)
  | sslErr

inductive SendAction where
  | sleep (d : ℚ)
  | exceptionHook
  | disconnectCall (reconnect : Bool) (send_close : Bool)
  | eventSocketError
  | taskDone
  | endThread
deriving DecidableEq

inductive LoopExit where
  | completed
  | raised
  | outOfTrace
deriving DecidableEq

structure SendCfg where
  ssl_retry_max : Nat
  ssl_retry_delay : ℚ
  auto_reconnect : Bool
  stop : Bool
  session_started : Bool

/-- The inner `while sent < total and not stop and session_started` write
loop of `_send_thread`, consuming one socket outcome per iteration.
`outOfTrace` means the outcome script ran out mid-loop (the run is not
modelled further). -/
def sendInner (cfg : SendCfg) (total : Nat) :
    List SendOutcome → Nat → Nat → LoopExit × List SendAction
  | outcomes, sent, tries =>
      if sent < total ∧ cfg.stop = false ∧ cfg.session_started = true then
        match outcomes with
        | [] => (.outOfTrace, [])
        | .ok n :: rest => sendInner cfg total rest (sent + n) tries
        | .sockErr eintr :: rest =>
            if eintr then sendInner cfg total rest sent tries
            else (.raised, [])
        | .sslErr :: rest =>
            let acts :=
              (if cfg.ssl_retry_max ≤ tries then
                 SendAction.exceptionHook
                   :: (if cfg.stop = false then
                         [SendAction.disconnectCall cfg.auto_reconnect false]
                       else [])
               else [])
                ++ (if cfg.stop = false then [SendAction.sleep cfg.ssl_retry_delay]
                    else [])
            let r := sendInner cfg total rest sent (tries + 1)
            (r.1, acts ++ r.2)
      else (.completed, [])

/-- One item's pass through `_send_thread`: the inner write loop plus the
outer `except (Socket.error, ssl.SSLError)` handler, which raises the
`socket_error` event, retains the failed item in `__failed_send_stanza`
and calls `disconnect(self.auto_reconnect, send_close=False)`.  Returns
the action trace, the retained item and whether the worker returned. -/
def sendItem (cfg : SendCfg) (data : String) (outcomes : List SendOutcome) :
    List SendAction × Option String × Bool :=
  let r := sendInner cfg data.utf8ByteSize outcomes 0 0
  match r.1 with
  | .raised =>
      (r.2 ++ SendAction.eventSocketError
          :: (if cfg.stop = false then
                [SendAction.endThread, SendAction.disconnectCall cfg.auto_reconnect false]
              else []),
       if cfg.stop = false then some data else none,
       !cfg.stop)
  | .completed => (r.2 ++ [SendAction.taskDone], none, false)
  | .outOfTrace => (r.2, none, false)

/-- The head of the `_send_thread` outer loop: wait for session start (or
stop), then choose the retained failed item over the queue. -/
inductive SelectResult where
  | exitLoop
  | waitSession
  | queueWait
  | use (data : String) (failedAfter : Option String) (queueAfter : List String)
deriving DecidableEq

/-- Which datum the send worker picks next, given the `stop` and
`session_started` flags, the retained `__failed_send_stanza` and the send
queue: the outer `while not self.stop.is_set()` check, the inner
wait-for-session loop, and the retained-item-before-queue choice of
`_send_thread`. -/
def selectNext (stop session : Bool) (failed : Option String)
    (queue : List String) : SelectResult :=
  if stop then .exitLoop
  else if session = false then .waitSession
  else
    match failed with
    | some d => .use d none queue
    | none =>
        match queue with
        | [] => .queueWait
        | d :: rest => .use d none rest

/-- The concrete C3 run: max 1 SSL retry, delay 1/2, reconnect enabled,
running (not stopped) in a started session. -/
def sendCfgC3 : SendCfg := ⟨1, 1/2, true, false, true⟩

/-- C3 counterexample: two consecutive SSL write errors on a 1-byte item
with `ssl_retry_max = 1`.  The trace shows the retry sleep, then — once
the retry count reaches the maximum — the stream-wide exception hook and
`disconnect(auto_reconnect, send_close=False)`, but no `socket_error`
event is raised, contrary to the claim. -/
theorem ssl_retry_counterexample :
    (sendItem sendCfgC3 "a" [SendOutcome.sslErr, SendOutcome.sslErr]).1
        = [SendAction.sleep (1/2), SendAction.exceptionHook,
           SendAction.disconnectCall true false, SendAction.sleep (1/2)]
      ∧ SendAction.eventSocketError
          ∉ (sendItem sendCfgC3 "a" [SendOutcome.sslErr, SendOutcome.sslErr]).1 := by
  refine ⟨rfl, ?_⟩
  rw [(rfl : (sendItem sendCfgC3 "a" [SendOutcome.sslErr, SendOutcome.sslErr]).1
        = [SendAction.sleep (1/2), SendAction.exceptionHook,
           SendAction.disconnectCall true false, SendAction.sleep (1/2)])]
  decide

/-- C3 (amended): in the running send loop an SSL write error sleeps
`ssl_retry_delay` and retries while the retry count is below
`ssl_retry_max`; once the count reaches the maximum, the stream-wide
exception hook (`self.exception`) is invoked — not a `socket_error`
event — and `disconnect` is called with the `auto_reconnect` setting and
`send_close=False` (the loop itself does not break: stopping relies on
the disconnect taking effect).  No `socket_error` event is ever raised by
the inner write loop. -/
theorem ssl_retry_behavior (cfg : SendCfg) (total sent tries : Nat)
    (rest : List SendOutcome) (hrun : sent < total)
    (hstop : cfg.stop = false) (hsess : cfg.session_started = true) :
    (sendInner cfg total (SendOutcome.sslErr :: rest) sent tries
        = ((sendInner cfg total rest sent (tries + 1)).1,
           (if cfg.ssl_retry_max ≤ tries then
              [SendAction.exceptionHook,
               SendAction.disconnectCall cfg.auto_reconnect false]
            else [])
             ++ SendAction.sleep cfg.ssl_retry_delay
                 :: (sendInner cfg total rest sent (tries + 1)).2)
      ∧ (∀ (outcomes : List SendOutcome) (s t : Nat),
            SendAction.eventSocketError ∉ (sendInner cfg total outcomes s t).2)) := by
  constructor
  · rw [sendInner]
    rw [if_pos ⟨hrun, hstop, hsess⟩]
    simp only [hstop, if_pos rfl]
    by_cases hm : cfg.ssl_retry_max ≤ tries
    · simp [hm]
    · simp [hm]
  · intro outcomes
    induction outcomes with
    | nil =>
        intro s t
        rw [sendInner]
        split
        · simp
        · simp
    | cons o rest ih =>
        intro s t
        cases o with
        | ok n =>
            rw [sendInner]
            split
            · exact ih _ _
            · simp
        | sockErr eintr =>
            rw [sendInner]
            split
            · split
              · exact ih _ _
              · simp
            · simp
        | sslErr =>
            rw [sendInner]
            split
            · intro hmem
              rcases List.mem_append.mp hmem with hmem | hmem
              · rcases List.mem_append.mp hmem with hmem | hmem
                · split at hmem <;> simp_all
                · simp at hmem
              · exact ih _ _ hmem
            · simp

/-- Witness for the amended C3: one SSL error below the maximum, then one
at the maximum, on a 1-byte item. -/
theorem ssl_retry_behavior_witness :
    sendInner sendCfgC3 1 [SendOutcome.sslErr] 0 1
        = ((sendInner sendCfgC3 1 [] 0 2).1,
           [SendAction.exceptionHook, SendAction.disconnectCall true false]
             ++ SendAction.sleep (1/2) :: (sendInner sendCfgC3 1 [] 0 2).2)
      ∧ SendAction.eventSocketError
          ∉ (sendInner sendCfgC3 1 [SendOutcome.sslErr, SendOutcome.sslErr] 0 0).2 := by
  have h := ssl_retry_behavior sendCfgC3 1 0 1 [] (by decide) rfl rfl
  exact ⟨h.1, h.2 [SendOutcome.sslErr, SendOutcome.sslErr] 0 0⟩

/-- C4 counterexample: with the session not yet started and a retained
failed item "x" present (queue holding "y"), the send worker waits on the
session-started event instead of draining the retained item, contrary to
the claim that the retained item is re-sent ahead of waiting for session
establishment. -/
theorem retained_item_gate_counterexample :
    selectNext false false (some "x") ["y"] = SelectResult.waitSession
      ∧ selectNext false false (some "x") ["y"]
          ≠ SelectResult.use "x" none ["y"] := by
  exact ⟨rfl, by decide⟩

/-- C4 (amended): on a non-retryable transport error the in-flight item is
retained in `__failed_send_stanza` (not lost); the worker first gates on
the session-started event (while the session is not started it waits,
whatever the retained item or queue hold), and once the gate passes the
retained item is drained before any new queue item is dequeued, so the
retained item is the first item sent after reconnection. -/
theorem retained_item_priority (cfg : SendCfg) (data d : String)
    (outcomes : List SendOutcome) (q : List String)
    (hstop : cfg.stop = false)
    (hraised : (sendInner cfg data.utf8ByteSize outcomes 0 0).1 = LoopExit.raised) :
    (sendItem cfg data outcomes).2.1 = some data
      ∧ (∀ (f : Option String) (q' : List String),
            selectNext false false f q' = SelectResult.waitSession)
      ∧ selectNext false true (some d) q = SelectResult.use d none q := by
  refine ⟨?_, fun f q' => rfl, rfl⟩
  simp only [sendItem, hraised]
  simp [hstop]

/-- Witness for the amended C4: a non-EINTR socket error while sending a
1-byte item, a retained item "x" and a queue holding "y". -/
theorem retained_item_priority_witness :
    (sendItem sendCfgC3 "a" [SendOutcome.sockErr false]).2.1 = some "a"
      ∧ selectNext false false (some "a") ["y"] = SelectResult.waitSession
      ∧ selectNext false true (some "x") ["y"] = SelectResult.use "x" none ["y"] := by
  have h := retained_item_priority sendCfgC3 "a" "x" [SendOutcome.sockErr false] ["y"]
    rfl (by decide)
  exact ⟨h.1, h.2.1 (some "a") ["y"], h.2.2⟩

/-! ## Stanza dispatch: `__spawn_event`

`__spawn_event` builds a stanza from the framed element
(`incoming_filter` is the identity in the base class, and
`_build_stanza` picks a registered stanza type, abstracted here as a
`build` function), runs the inbound filter chain (`None` drops the
stanza), snapshots the matching handlers, and delivers to each of them —
copying the stanza per handler when more than one matched — removing a
handler whose `check_delete()` holds, and finally calls
`stanza.unhandled()` when no handler matched.

Python objects alias: stanzas live in a store (a list of values), a
stanza reference is an index, and `copy.copy` allocates a fresh index;
mutation by a handler is a store write through its reference.  A handler
object is modelled by a unique numeric id standing for object identity
(`list.remove` removes by identity, modelled as first-matching-id), plus
its matcher predicate and its `once` flag.  Per the handler classes'
contract (they are outside this module: `Callback.run` sets the destroy
flag when `once`, synchronously, and `check_delete` reads it), a matched
handler is removed right in the loop exactly when `once` holds. -/

structure Handler (S : Type) where
  hid : Nat
  hname : String
  matchS : S → Bool
  once : Bool

/-- The inbound filter chain of `__spawn_event`:
`for filter in filters: if stanza is not None: stanza = filter(stanza)`. -/
def applyFilters {S : Type} (fs : List (S → Option S)) (s : S) : Option S :=
  fs.foldl (fun acc f => match acc with | none => none | some x => f x) (some s)

/-- Allocating a fresh Python object: append to the store, return the
new reference. -/
def storeAlloc {S : Type} (store : List S) (v : S) : List S × Nat :=
  (store ++ [v], store.length)

/-- Mutating the object behind a reference. -/
def storeWrite {S : Type} (store : List S) (i : Nat) (v : S) : List S :=
  store.set i v

/-- Reading the object behind a reference. -/
def storeRead {S : Type} (store : List S) (i : Nat) : Option S :=
  store[i]?

/-- `self.__handlers.remove(handler)`: remove the first handler with this
identity; absent identity is a no-op (the bare `except: pass`). -/
def removeHandler {S : Type} : List (Handler S) → Nat → List (Handler S)
  | [], _ => []
  | h :: t, i => if h.hid = i then t else h :: removeHandler t i

/-- The `for handler in matched_handlers` loop of `__spawn_event`:
per handler, copy the stanza if more than one handler matched
(`copy.copy(stanza)`), fire the handler with its reference (recorded as
a delivery `(handler id, stanza reference)`), and remove the handler
from the live list when `check_delete()` holds (`once` fired). -/
def deliverLoop {S : Type} (multi : Bool) (origRef : Nat) (sval : S) :
    List (Handler S) → List (Handler S) → List S → List (Nat × Nat) →
      List (Handler S) × List S × List (Nat × Nat)
  | [], handlers, store, dels => (handlers, store, dels)
  | h :: matchedRest, handlers, store, dels =>
      let p := if multi then storeAlloc store sval else (store, origRef)
      let handlers1 := if h.once then removeHandler handlers h.hid else handlers
      deliverLoop multi origRef sval matchedRest handlers1 p.1
        (dels ++ [(h.hid, p.2)])

structure SpawnResult (S : Type) where
  handlers : List (Handler S)
  store : List S
  deliveries : List (Nat × Nat)
  unhandledCount : Nat

/-- `XMLStream.__spawn_event`: build the stanza, run the inbound filter
chain (a `None` anywhere drops it before any matching), snapshot the
matching handlers, deliver to all of them, and call `stanza.unhandled()`
exactly when no handler matched. -/
def spawn_event {X S : Type} (build : X → S) (filtersIn : List (S → Option S))
    (handlers : List (Handler S)) (store : List S) (xml : X) : SpawnResult S :=
  match applyFilters filtersIn (build xml) with
  | none => ⟨handlers, store, [], 0⟩
  | some stanza =>
      let p := storeAlloc store stanza
      let matched := handlers.filter (fun h => h.matchS stanza)
      let r := deliverLoop (decide (1 < matched.length)) p.2 stanza matched
        handlers p.1 []
      ⟨r.1, r.2.1, r.2.2, if matched.isEmpty then 1 else 0⟩

/-- Sequential dispatch of several framed elements through
`__spawn_event`, threading the handler list and the store, collecting
every delivery. -/
def dispatchSeq {X S : Type} (build : X → S) (filtersIn : List (S → Option S)) :
    List (Handler S) → List S → List X →
      List (Handler S) × List S × List (Nat × Nat)
  | handlers, store, [] => (handlers, store, [])
  | handlers, store, x :: xs =>
      let r := spawn_event build filtersIn handlers store x
      let rest := dispatchSeq build filtersIn r.handlers r.store xs
      (rest.1, rest.2.1, r.deliveries ++ rest.2.2)

/-- C5: a stanza dropped by the inbound filter chain reaches no handler
(no delivery is made, the handler list is untouched) and the unhandled
hook is not invoked; conversely a stanza surviving all inbound filters
that zero handlers match triggers the unhandled hook exactly once (and
again no delivery is made). -/
theorem inbound_filter_drop_and_unhandled {X S : Type} (build : X → S)
    (filtersIn : List (S → Option S)) (handlers : List (Handler S))
    (store : List S) (xml : X) :
    (applyFilters filtersIn (build xml) = none →
        (spawn_event build filtersIn handlers store xml).deliveries = []
          ∧ (spawn_event build filtersIn handlers store xml).unhandledCount = 0
          ∧ (spawn_event build filtersIn handlers store xml).handlers = handlers)
      ∧ (∀ s : S, applyFilters filtersIn (build xml) = some s →
            handlers.filter (fun h => h.matchS s) = [] →
            (spawn_event build filtersIn handlers store xml).unhandledCount = 1
              ∧ (spawn_event build filtersIn handlers store xml).deliveries = []) := by
  constructor
  · intro hnone
    simp [spawn_event, hnone]
  · intro s hsome hmatch
    simp [spawn_event, hsome, hmatch, deliverLoop]

/-- Witness for C5: a one-filter chain that drops everything (delivering
nothing, not even to the always-matching handler), and an empty filter
chain with a never-matching handler (unhandled hook invoked once). -/
theorem inbound_filter_drop_and_unhandled_witness :
    let dropAll : List (Nat → Option Nat) := [fun _ => none]
    let h0 : Handler Nat := ⟨0, "h0", fun _ => true, false⟩
    let h1 : Handler Nat := ⟨1, "h1", fun _ => false, false⟩
    ((spawn_event id dropAll [h0] [] 7).deliveries = []
        ∧ (spawn_event id dropAll [h0] [] 7).unhandledCount = 0)
      ∧ ((spawn_event id [] [h1] [] 7).unhandledCount = 1
        ∧ (spawn_event id [] [h1] [] 7).deliveries = []) := by
  refine ⟨?_, ?_⟩
  · have h := (inbound_filter_drop_and_unhandled id [fun _ => none]
      [⟨0, "h0", fun _ => true, false⟩] ([] : List Nat) 7).1 rfl
    exact ⟨h.1, h.2.1⟩
  · exact (inbound_filter_drop_and_unhandled id []
      [⟨1, "h1", fun _ => false, false⟩] ([] : List Nat) 7).2 7 rfl rfl

/-- Auxiliary: the handler list coming out of the delivery loop is the
fold of the per-handler removals, whatever the copying mode. -/
theorem deliverLoop_handlers {S : Type} (multi : Bool) (orig : Nat) (sval : S) :
    ∀ (matched handlers : List (Handler S)) (store : List S)
      (dels : List (Nat × Nat)),
      (deliverLoop multi orig sval matched handlers store dels).1
        = matched.foldl
            (fun hs h => if h.once then removeHandler hs h.hid else hs) handlers := by
  intro matched
  induction matched with
  | nil => intro handlers store dels; rfl
  | cons h rest ih =>
      intro handlers store dels
      simp only [deliverLoop, List.foldl_cons]
      exact ih _ _ _

/-- Auxiliary: with copying on (more than one match), the delivery loop
allocates one fresh copy of the stanza per handler: the store grows by
`matched.length` copies and the deliveries pair each matched handler id
with the consecutive fresh references. -/
theorem deliverLoop_multi_spec {S : Type} (orig : Nat) (sval : S) :
    ∀ (matched handlers : List (Handler S)) (store : List S)
      (dels : List (Nat × Nat)),
      (deliverLoop true orig sval matched handlers store dels).2.1
          = store ++ List.replicate matched.length sval
        ∧ (deliverLoop true orig sval matched handlers store dels).2.2
          = dels ++ (matched.map Handler.hid).zip
              (List.range' store.length matched.length) := by
  intro matched
  induction matched with
  | nil => intro handlers store dels; simp [deliverLoop]
  | cons h rest ih =>
      intro handlers store dels
      simp only [deliverLoop, storeAlloc, if_true]
      obtain ⟨ih1, ih2⟩ := ih
        (if h.once then removeHandler handlers h.hid else handlers)
        (store ++ [sval]) (dels ++ [(h.hid, store.length)])
      constructor
      · rw [ih1]
        simp [List.replicate_succ, List.append_assoc]
      · rw [ih2]
        simp [List.range'_succ, List.append_assoc]

/-- Auxiliary: with copying off (at most one match), the delivery loop
leaves the store unchanged and every delivery carries the original
stanza reference. -/
theorem deliverLoop_single_spec {S : Type} (orig : Nat) (sval : S) :
    ∀ (matched handlers : List (Handler S)) (store : List S)
      (dels : List (Nat × Nat)),
      (deliverLoop false orig sval matched handlers store dels).2.1 = store
        ∧ (deliverLoop false orig sval matched handlers store dels).2.2
          = dels ++ matched.map (fun h => (h.hid, orig)) := by
  intro matched
  induction matched with
  | nil => intro handlers store dels; simp [deliverLoop]
  | cons h rest ih =>
      intro handlers store dels
      simp only [deliverLoop, Bool.false_eq_true, if_false]
      obtain ⟨ih1, ih2⟩ := ih
        (if h.once then removeHandler handlers h.hid else handlers)
        store (dels ++ [(h.hid, orig)])
      refine ⟨ih1, ?_⟩
      rw [ih2]
      simp [List.append_assoc]

/-- C6: for a dispatched stanza (one surviving the inbound filters),
every registered handler whose matcher accepts it is delivered to — the
delivered handler ids are exactly the matching handlers' ids, in order —
each delivery's reference holds the stanza value; and when two or more
handlers match, the delivered stanza references are pairwise distinct
fresh copies, so a store write (mutation) through one delivery's
reference is not observable through another's. -/
theorem spawn_event_matches_fire_independent_copies {X S : Type}
    (build : X → S) (filtersIn : List (S → Option S))
    (handlers : List (Handler S)) (store : List S) (xml : X) (s : S)
    (hfil : applyFilters filtersIn (build xml) = some s) :
    ((spawn_event build filtersIn handlers store xml).deliveries.map Prod.fst
        = (handlers.filter (fun h => h.matchS s)).map Handler.hid)
      ∧ (∀ d ∈ (spawn_event build filtersIn handlers store xml).deliveries,
            storeRead (spawn_event build filtersIn handlers store xml).store d.2
              = some s)
      ∧ (1 < (handlers.filter (fun h => h.matchS s)).length →
          ((spawn_event build filtersIn handlers store xml).deliveries.map
              Prod.snd).Nodup
            ∧ (∀ r1 ∈ (spawn_event build filtersIn handlers store xml).deliveries.map
                  Prod.snd,
               ∀ r2 ∈ (spawn_event build filtersIn handlers store xml).deliveries.map
                  Prod.snd,
               r1 ≠ r2 → ∀ v : S,
                 storeRead (storeWrite
                     (spawn_event build filtersIn handlers store xml).store r1 v) r2
                   = storeRead
                       (spawn_event build filtersIn handlers store xml).store r2)) := by
  simp only [spawn_event, hfil, storeAlloc]
  by_cases hm : 1 < (handlers.filter (fun h => h.matchS s)).length
  · rw [decide_eq_true hm]
    obtain ⟨hst, hdel⟩ := deliverLoop_multi_spec store.length s
      (handlers.filter (fun h => h.matchS s)) handlers (store ++ [s]) []
    have hlenmap : ((handlers.filter (fun h => h.matchS s)).map Handler.hid).length
        = (handlers.filter (fun h => h.matchS s)).length := List.length_map _ _
    have hlenrange : (List.range' (store ++ [s]).length
          (handlers.filter (fun h => h.matchS s)).length).length
        = (handlers.filter (fun h => h.matchS s)).length := by
      simp [List.length_range']
    refine ⟨?_, ?_, fun _ => ⟨?_, ?_⟩⟩
    · rw [hdel]
      simp only [List.nil_append]
      exact List.map_fst_zip _ _ (by rw [hlenmap, hlenrange])
    · intro d hd
      rw [hdel] at hd
      simp only [List.nil_append] at hd
      have hsnd : d.2 ∈ List.range' (store ++ [s]).length
          (handlers.filter (fun h => h.matchS s)).length :=
        (List.of_mem_zip hd).2
      rw [hst]
      rw [List.mem_range'] at hsnd
      obtain ⟨i, hi, hdi⟩ := hsnd
      simp only [storeRead, hdi]
      rw [List.getElem?_append_right (Nat.le_add_right _ _)]
      simp [List.getElem?_replicate, hi]
    · rw [hdel]
      simp only [List.nil_append]
      rw [List.map_snd_zip _ _ (by rw [hlenmap, hlenrange])]
      exact List.nodup_range' _ _
    · intro r1 _ r2 _ hne v
      simp only [storeRead, storeWrite]
      exact List.getElem?_set_ne hne
  · rw [decide_eq_false hm]
    obtain ⟨hst, hdel⟩ := deliverLoop_single_spec store.length s
      (handlers.filter (fun h => h.matchS s)) handlers (store ++ [s]) []
    refine ⟨?_, ?_, fun hm1 => absurd hm1 hm⟩
    · rw [hdel]
      simp [Function.comp]
    · intro d hd
      rw [hdel] at hd
      simp only [List.nil_append, List.mem_map] at hd
      obtain ⟨h, _, hdh⟩ := hd
      rw [hst, ← hdh]
      simp only [storeRead]
      exact List.getElem?_concat_length _ _

/-- Witness for C6: two always-matching handlers, one stanza (the value
5): both fire, with distinct fresh references 1 and 2, and writing 99
through reference 1 is invisible through reference 2. -/
theorem spawn_event_matches_fire_witness :
    ((spawn_event (id : Nat → Nat) []
        [⟨0, "a", fun _ => true, false⟩, ⟨1, "b", fun _ => true, false⟩]
        [] 5).deliveries.map Prod.fst = [0, 1])
      ∧ storeRead (spawn_event (id : Nat → Nat) []
          [⟨0, "a", fun _ => true, false⟩, ⟨1, "b", fun _ => true, false⟩]
          [] 5).store 1 = some 5
      ∧ ((spawn_event (id : Nat → Nat) []
          [⟨0, "a", fun _ => true, false⟩, ⟨1, "b", fun _ => true, false⟩]
          [] 5).deliveries.map Prod.snd).Nodup
      ∧ storeRead (storeWrite (spawn_event (id : Nat → Nat) []
            [⟨0, "a", fun _ => true, false⟩, ⟨1, "b", fun _ => true, false⟩]
            [] 5).store 1 99) 2
          = storeRead (spawn_event (id : Nat → Nat) []
              [⟨0, "a", fun _ => true, false⟩, ⟨1, "b", fun _ => true, false⟩]
              [] 5).store 2 := by
  have h := spawn_event_matches_fire_independent_copies (id : Nat → Nat) []
    [⟨0, "a", fun _ => true, false⟩, ⟨1, "b", fun _ => true, false⟩]
    [] 5 5 rfl
  refine ⟨h.1.trans rfl, h.2.1 (0, 1) (by decide), (h.2.2 (by decide)).1, ?_⟩
  exact (h.2.2 (by decide)).2 1 (by decide) 2 (by decide) (by decide) 99

/-- Auxiliary: removing a handler yields a sublist of the handler list. -/
theorem removeHandler_sublist {S : Type} (i : Nat) :
    ∀ l : List (Handler S), List.Sublist (removeHandler l i) l := by
  intro l
  induction l with
  | nil => exact List.Sublist.refl _
  | cons h t ih =>
      simp only [removeHandler]
      by_cases hh : h.hid = i
      · rw [if_pos hh]
        exact (List.Sublist.refl t).cons h
      · rw [if_neg hh]
        exact ih.cons₂ h

/-- Auxiliary: with pairwise-distinct handler ids, removing id `i`
removes its only occurrence. -/
theorem removeHandler_not_mem {S : Type} (i : Nat) :
    ∀ l : List (Handler S), (l.map Handler.hid).Nodup →
      i ∉ (removeHandler l i).map Handler.hid := by
  intro l
  induction l with
  | nil => intro _; simp [removeHandler]
  | cons h t ih =>
      intro hnd
      simp only [List.map_cons, List.nodup_cons] at hnd
      obtain ⟨hh1, hh2⟩ := hnd
      simp only [removeHandler]
      by_cases hh : h.hid = i
      · rw [if_pos hh, ← hh]
        exact hh1
      · rw [if_neg hh]
        simp only [List.map_cons, List.mem_cons]
        rintro (he | hm)
        · exact hh he.symm
        · exact ih hh2 hm

/-- Auxiliary: the delivery loop's removal fold yields a sublist of the
handler list. -/
theorem foldl_remove_sublist {S : Type} :
    ∀ (matched handlers : List (Handler S)),
      List.Sublist
        (matched.foldl
          (fun hs h => if h.once then removeHandler hs h.hid else hs) handlers)
        handlers := by
  intro matched
  induction matched with
  | nil => intro handlers; exact List.Sublist.refl _
  | cons h rest ih =>
      intro handlers
      simp only [List.foldl_cons]
      refine (ih _).trans ?_
      by_cases ho : h.once
      · rw [if_pos ho]
        exact removeHandler_sublist h.hid handlers
      · rw [if_neg ho]

/-- Auxiliary: if some matched handler has id `i` and is `once`, the
removal fold eliminates id `i` from the handler list (ids distinct). -/
theorem foldl_remove_not_mem {S : Type} (i : Nat) :
    ∀ (matched handlers : List (Handler S)),
      (handlers.map Handler.hid).Nodup →
      (∃ g ∈ matched, g.hid = i ∧ g.once = true) →
      i ∉ ((matched.foldl
            (fun hs h => if h.once then removeHandler hs h.hid else hs)
            handlers).map Handler.hid) := by
  intro matched
  induction matched with
  | nil =>
      rintro handlers _ ⟨g, hg, _⟩
      exact absurd hg (List.not_mem_nil g)
  | cons h rest ih =>
      rintro handlers hnd ⟨g, hg, hgi, hgo⟩
      simp only [List.foldl_cons]
      rcases List.mem_cons.mp hg with rfl | hgrest
      · rw [if_pos hgo, hgi]
        intro hmem
        have hsub := (foldl_remove_sublist rest (removeHandler handlers i)).map
          Handler.hid
        exact removeHandler_not_mem i handlers hnd (hsub.subset hmem)
      · by_cases ho : h.once
        · rw [if_pos ho]
          refine ih (removeHandler handlers h.hid) ?_ ⟨g, hgrest, hgi, hgo⟩
          exact hnd.sublist ((removeHandler_sublist h.hid handlers).map Handler.hid)
        · rw [if_neg ho]
          exact ih handlers hnd ⟨g, hgrest, hgi, hgo⟩

/-- Auxiliary: for a stanza surviving the filters, the delivered handler
ids are exactly the matching handlers' ids, in order. -/
theorem spawn_event_deliveries_fst {X S : Type} (build : X → S)
    (filtersIn : List (S → Option S)) (handlers : List (Handler S))
    (store : List S) (xml : X) (s : S)
    (hfil : applyFilters filtersIn (build xml) = some s) :
    (spawn_event build filtersIn handlers store xml).deliveries.map Prod.fst
      = (handlers.filter (fun h => h.matchS s)).map Handler.hid := by
  simp only [spawn_event, hfil, storeAlloc]
  by_cases hm : 1 < (handlers.filter (fun h => h.matchS s)).length
  · rw [decide_eq_true hm]
    obtain ⟨_, hdel⟩ := deliverLoop_multi_spec store.length s
      (handlers.filter (fun h => h.matchS s)) handlers (store ++ [s]) []
    rw [hdel]
    simp only [List.nil_append]
    refine List.map_fst_zip _ _ ?_
    simp [List.length_range']
  · rw [decide_eq_false hm]
    obtain ⟨_, hdel⟩ := deliverLoop_single_spec store.length s
      (handlers.filter (fun h => h.matchS s)) handlers (store ++ [s]) []
    rw [hdel]
    simp [Function.comp]

/-- Auxiliary: for a stanza surviving the filters, the handler list after
the pass is the removal fold over the matched handlers. -/
theorem spawn_event_handlers_some {X S : Type} (build : X → S)
    (filtersIn : List (S → Option S)) (handlers : List (Handler S))
    (store : List S) (xml : X) (s : S)
    (hfil : applyFilters filtersIn (build xml) = some s) :
    (spawn_event build filtersIn handlers store xml).handlers
      = (handlers.filter (fun h => h.matchS s)).foldl
          (fun hs h => if h.once then removeHandler hs h.hid else hs) handlers := by
  simp only [spawn_event, hfil, storeAlloc]
  exact deliverLoop_handlers _ _ _ _ _ _ _

/-- Auxiliary: a dispatch pass only ever removes handlers. -/
theorem spawn_event_handlers_sublist {X S : Type} (build : X → S)
    (filtersIn : List (S → Option S)) (handlers : List (Handler S))
    (store : List S) (xml : X) :
    List.Sublist (spawn_event build filtersIn handlers store xml).handlers
      handlers := by
  cases hfil : applyFilters filtersIn (build xml) with
  | none =>
      have h : (spawn_event build filtersIn handlers store xml).handlers
          = handlers := by
        simp [spawn_event, hfil]
      rw [h]
  | some s =>
      rw [spawn_event_handlers_some _ _ _ _ _ _ hfil]
      exact foldl_remove_sublist _ _

/-- Auxiliary: an id absent from the handler list is never delivered to
and stays absent. -/
theorem spawn_event_absent {X S : Type} (build : X → S)
    (filtersIn : List (S → Option S)) (i : Nat) (handlers : List (Handler S))
    (store : List S) (xml : X) (habs : i ∉ handlers.map Handler.hid) :
    i ∉ (spawn_event build filtersIn handlers store xml).deliveries.map Prod.fst
      ∧ i ∉ (spawn_event build filtersIn handlers store xml).handlers.map
          Handler.hid := by
  constructor
  · cases hfil : applyFilters filtersIn (build xml) with
    | none => simp [spawn_event, hfil]
    | some s =>
        rw [spawn_event_deliveries_fst _ _ _ _ _ _ hfil]
        intro hmem
        obtain ⟨g, hgmem, hgi⟩ := List.mem_map.mp hmem
        exact habs (List.mem_map.mpr ⟨g, List.mem_of_mem_filter hgmem, hgi⟩)
  · intro hmem
    exact habs
      (((spawn_event_handlers_sublist build filtersIn handlers store xml).map
        Handler.hid).subset hmem)

/-- Auxiliary: once an id is gone from the handler list, a whole dispatch
sequence never delivers to it. -/
theorem dispatchSeq_absent {X S : Type} (build : X → S)
    (filtersIn : List (S → Option S)) (i : Nat) :
    ∀ (xmls : List X) (handlers : List (Handler S)) (store : List S),
      i ∉ handlers.map Handler.hid →
      ((dispatchSeq build filtersIn handlers store xmls).2.2.map Prod.fst).count i
        = 0 := by
  intro xmls
  induction xmls with
  | nil => intro handlers store _; rfl
  | cons x xs ih =>
      intro handlers store habs
      obtain ⟨hd, hh⟩ := spawn_event_absent build filtersIn i handlers store x habs
      simp only [dispatchSeq, List.map_append, List.count_append]
      rw [List.count_eq_zero.mpr hd, ih _ _ hh]

/-- Auxiliary: one dispatch pass, for a `once` handler with a unique id:
it is delivered to at most once, it is removed from the handler list by
the very pass that delivers to it, and the id-uniqueness and `once`
properties are preserved. -/
theorem spawn_event_once_pass {X S : Type} (build : X → S)
    (filtersIn : List (S → Option S)) (i : Nat) (handlers : List (Handler S))
    (store : List S) (xml : X)
    (hnd : (handlers.map Handler.hid).Nodup)
    (honce : ∀ h ∈ handlers, h.hid = i → h.once = true) :
    ((spawn_event build filtersIn handlers store xml).deliveries.map
        Prod.fst).count i ≤ 1
      ∧ (i ∈ (spawn_event build filtersIn handlers store xml).deliveries.map
            Prod.fst →
          i ∉ (spawn_event build filtersIn handlers store xml).handlers.map
            Handler.hid)
      ∧ ((spawn_event build filtersIn handlers store xml).handlers.map
          Handler.hid).Nodup
      ∧ (∀ h ∈ (spawn_event build filtersIn handlers store xml).handlers,
            h.hid = i → h.once = true) := by
  have hsub := spawn_event_handlers_sublist build filtersIn handlers store xml
  refine ⟨?_, ?_, hnd.sublist (hsub.map Handler.hid),
    fun h hm => honce h (hsub.subset hm)⟩
  · cases hfil : applyFilters filtersIn (build xml) with
    | none => simp [spawn_event, hfil]
    | some s =>
        rw [spawn_event_deliveries_fst _ _ _ _ _ _ hfil]
        have hnodup : ((handlers.filter (fun h => h.matchS s)).map
            Handler.hid).Nodup :=
          hnd.sublist ((List.filter_sublist handlers).map Handler.hid)
        exact (List.nodup_iff_count_le_one.mp hnodup) i
  · cases hfil : applyFilters filtersIn (build xml) with
    | none => intro hmem; simp [spawn_event, hfil] at hmem
    | some s =>
        rw [spawn_event_deliveries_fst _ _ _ _ _ _ hfil,
            spawn_event_handlers_some _ _ _ _ _ _ hfil]
        intro hmem
        obtain ⟨g, hgmem, hgi⟩ := List.mem_map.mp hmem
        exact foldl_remove_not_mem i _ handlers hnd
          ⟨g, hgmem, hgi, honce g (List.mem_of_mem_filter hgmem) hgi⟩

/-- C7: a handler registered with `once=true` (its id unique in the
handler list) is delivered to at most once across any sequence of
dispatched stanzas, because it is removed from the handler list
synchronously within the dispatch pass in which it first matches —
before the next stanza is dispatched — as the second conjunct states for
every single pass. -/
theorem once_handler_fires_at_most_once {X S : Type} (build : X → S)
    (filtersIn : List (S → Option S)) (i : Nat) :
    ∀ (xmls : List X) (handlers : List (Handler S)) (store : List S),
      (handlers.map Handler.hid).Nodup →
      (∀ h ∈ handlers, h.hid = i → h.once = true) →
      (((dispatchSeq build filtersIn handlers store xmls).2.2.map
          Prod.fst).count i ≤ 1
        ∧ ∀ xml : X,
            i ∈ (spawn_event build filtersIn handlers store xml).deliveries.map
              Prod.fst →
            i ∉ (spawn_event build filtersIn handlers store xml).handlers.map
              Handler.hid) := by
  intro xmls
  induction xmls with
  | nil =>
      intro handlers store hnd honce
      exact ⟨Nat.zero_le 1, fun xml =>
        (spawn_event_once_pass build filtersIn i handlers store xml hnd honce).2.1⟩
  | cons x xs ih =>
      intro handlers store hnd honce
      obtain ⟨hcnt, hrem, hnd', honce'⟩ :=
        spawn_event_once_pass build filtersIn i handlers store x hnd honce
      refine ⟨?_, fun xml =>
        (spawn_event_once_pass build filtersIn i handlers store xml hnd honce).2.1⟩
      simp only [dispatchSeq, List.map_append, List.count_append]
      by_cases hi : i ∈ (spawn_event build filtersIn handlers store x).deliveries.map
          Prod.fst
      · have h0 := dispatchSeq_absent build filtersIn i xs
          (spawn_event build filtersIn handlers store x).handlers
          (spawn_event build filtersIn handlers store x).store (hrem hi)
        rw [h0]
        omega
      · rw [List.count_eq_zero.mpr hi]
        have hrest := (ih (spawn_event build filtersIn handlers store x).handlers
          (spawn_event build filtersIn handlers store x).store hnd' honce').1
        omega

/-- Witness for C7: one always-matching `once` handler (id 0), two
stanzas dispatched in sequence: it fires at most once, and the pass that
fires it already removed it from the handler list. -/
theorem once_handler_fires_at_most_once_witness :
    (((dispatchSeq (id : Nat → Nat) [] [⟨0, "h", fun _ => true, true⟩] []
        [1, 2]).2.2.map Prod.fst).count 0 ≤ 1)
      ∧ 0 ∉ (spawn_event (id : Nat → Nat) [] [⟨0, "h", fun _ => true, true⟩]
          [] 1).handlers.map Handler.hid := by
  have h := once_handler_fires_at_most_once (id : Nat → Nat) [] 0 [1, 2]
    [⟨0, "h", fun _ => true, true⟩] [] (by decide)
    (fun g hm _ => by rcases List.mem_singleton.mp hm with rfl; rfl)
  exact ⟨h.1, h.2 1 (by decide)⟩

end Slixmpp
